import Mathlib

/-!
Verification of the core production-document assembly pipeline of
`ProdPlanGenerator.py` (Fardan Apex ProdPlanGenerator).

The spreadsheet "oracle" is modelled as pure functions from the primed
product code to the computed cell values; every definition below follows
the corresponding Python function of `src/ProdPlanGenerator.py`.
-/

namespace ProdPlan

/-- A spreadsheet cell value as the oracle adapter delivers it to Python:
`none` models Python `None`, `str` a text cell, `num` a numeric cell. -/
inductive Cell where
  | none
  | str (s : String)
  | num (x : Int)
deriving DecidableEq, Repr

/-- `isinstance(v, (int, float)) and v is not None` of the Python loop body. -/
def Cell.isNum : Cell → Bool
  | .num _ => true
  | _ => false

/-- Python truthiness of a cell value (`if row_data[0]:`). -/
def Cell.truthy : Cell → Bool
  | .none => false
  | .str s => !s.isEmpty
  | .num x => x != 0

/-- Offset (from the start of the scanned range) of the last numeric cell,
if any: the downward `for i in range(len(values) - 1, -1, -1)` loop of
`Worker.find_last_numeric_row` returns at the first numeric hit from the end. -/
def lastNumericOffset : List Cell → Option Nat
  | [] => Option.none
  | c :: cs =>
    match lastNumericOffset cs with
    | Option.some i => Option.some (i + 1)
    | Option.none => if c.isNum then Option.some 0 else Option.none

/-- `Worker.find_last_numeric_row(sheet, search_range)`: `startRow` is
`sheet.range(search_range).row`, `values` the column of cell values; the
result is `start_row + i` for the last numeric cell, or the sentinel `0`. -/
def find_last_numeric_row (startRow : Nat) (values : List Cell) : Nat :=
  match lastNumericOffset values with
  | Option.some i => startRow + i
  | Option.none => 0

lemma lastNumericOffset_eq_none_iff (l : List Cell) :
    lastNumericOffset l = Option.none ↔ ∀ c ∈ l, c.isNum = false := by
  induction l with
  | nil => simp [lastNumericOffset]
  | cons c cs ih =>
    simp only [lastNumericOffset]
    cases h : lastNumericOffset cs with
    | some i =>
      constructor
      · intro hcontra; cases hcontra
      · intro hall
        have hnone : lastNumericOffset cs = Option.none :=
          ih.mpr (fun x hx => hall x (List.mem_cons_of_mem _ hx))
        rw [hnone] at h; cases h
    | none =>
      by_cases hc : c.isNum = true
      · rw [if_pos hc]
        constructor
        · intro hcontra; cases hcontra
        · intro hall
          have := hall c (List.mem_cons_self c cs)
          rw [hc] at this; cases this
      · rw [if_neg hc]
        have hc' : c.isNum = false := by
          cases hcc : c.isNum
          · rfl
          · exact absurd hcc hc
        constructor
        · intro _ x hx
          rcases List.mem_cons.mp hx with rfl | hx'
          · exact hc'
          · exact (ih.mp h) x hx'
        · intro _; rfl

lemma lastNumericOffset_eq_some (l : List Cell) (i : Nat) (h : i < l.length)
    (hnum : (l.get ⟨i, h⟩).isNum = true)
    (hlast : ∀ j, ∀ hj : j < l.length, i < j → (l.get ⟨j, hj⟩).isNum = false) :
    lastNumericOffset l = Option.some i := by
  induction l generalizing i with
  | nil => exact absurd h (Nat.not_lt_zero i)
  | cons c cs ih =>
    cases i with
    | zero =>
      have hnone : lastNumericOffset cs = Option.none := by
        rw [lastNumericOffset_eq_none_iff]
        intro x hx
        obtain ⟨⟨j, hj⟩, rfl⟩ := List.mem_iff_get.mp hx
        have := hlast (j + 1) (by simpa using Nat.succ_lt_succ hj) (Nat.succ_pos j)
        simpa [List.get] using this
      simp only [lastNumericOffset, hnone]
      simp only [List.get] at hnum
      rw [if_pos hnum]
    | succ i' =>
      have hi' : i' < cs.length := Nat.lt_of_succ_lt_succ h
      have hnum' : (cs.get ⟨i', hi'⟩).isNum = true := by simpa [List.get] using hnum
      have hlast' : ∀ j, ∀ hj : j < cs.length, i' < j → (cs.get ⟨j, hj⟩).isNum = false := by
        intro j hj hij
        have := hlast (j + 1) (by simpa using Nat.succ_lt_succ hj) (Nat.succ_lt_succ hij)
        simpa [List.get] using this
      have := ih i' hi' hnum' hlast'
      simp [lastNumericOffset, this]

/-- C9: `findLastRow` returns the absolute row index (range start row plus
offset) of the last numeric, non-null cell in the column range, scanning from
the last cell upward, and the sentinel `0` when no cell is numeric. -/
theorem C9_find_last_numeric_row (startRow : Nat) (values : List Cell) :
    ((∀ c ∈ values, c.isNum = false) → find_last_numeric_row startRow values = 0) ∧
    (∀ i, ∀ h : i < values.length, (values.get ⟨i, h⟩).isNum = true →
      (∀ j, ∀ hj : j < values.length, i < j → (values.get ⟨j, hj⟩).isNum = false) →
      find_last_numeric_row startRow values = startRow + i) := by
  constructor
  · intro hall
    unfold find_last_numeric_row
    rw [(lastNumericOffset_eq_none_iff values).mpr hall]
  · intro i h hnum hlast
    unfold find_last_numeric_row
    rw [lastNumericOffset_eq_some values i h hnum hlast]

/-- Witness for C9 at a concrete range: scanning `[num 1, str "x", num 3, none]`
with start row 5 yields row 7 (the cell at offset 2), and an all-text column
yields the sentinel 0. -/
theorem C9_find_last_numeric_row_witness :
    find_last_numeric_row 5 [Cell.num 1, Cell.str "x", Cell.num 3, Cell.none] = 7 ∧
    find_last_numeric_row 9 [Cell.str "a", Cell.none] = 0 := by
  constructor
  · exact (C9_find_last_numeric_row 5 _).2 2 (by decide) (by decide)
      (by decide)
  · exact (C9_find_last_numeric_row 9 _).1 (by decide)

/-! ## Variant resolution (`Worker.run`, lines 469-479)

The oracle is abstracted as the function `check` from the product code that
is written into cell `I4` to the string content of the check cell `D1`.
A code is valid when `str(check).strip().lower() != 'empty'`. -/

/-- Python `str.isspace` membership for the characters `str.strip()` removes
(ASCII portion, which is all that occurs in the workbook's check field). -/
def pyIsSpace (c : Char) : Bool :=
  c == ' ' || c == '\t' || c == '\n' || c == '\r' || c == '\x0b' || c == '\x0c'

/-- Drop trailing whitespace, the right half of Python `str.strip()`. -/
def dropTrailingSpace (s : List Char) : List Char :=
  (s.reverse.dropWhile pyIsSpace).reverse

/-- Python `str.strip()` on the character list of a string. -/
def pyStrip (s : List Char) : List Char :=
  dropTrailingSpace (s.dropWhile pyIsSpace)

/-- Python `str.lower()` (ASCII portion). -/
def pyLower (s : List Char) : List Char :=
  s.map Char.toLower

/-- `str(db_sheet.range(CELL_CHECK).value).strip().lower() != 'empty'`. -/
def checkIsValid (check : String → String) (code : String) : Bool :=
  pyLower (pyStrip (check code).data) != "empty".data

/-- The probed suffix alphabet, `"ABCDEFGHIJKLMNOPQRSTUVWXYZ"`. -/
def suffixLetters : List Char := "ABCDEFGHIJKLMNOPQRSTUVWXYZ".toList

/-- The `for suffix in "ABCDE..."` loop: each iteration writes
`original_product_code + suffix` into the oracle and reads the check cell;
a valid variant is appended, the first invalid one breaks the loop.
Returns the collected variants and the trace of codes written to the oracle. -/
def probeLoop (valid : String → Bool) (raw : String) : List Char → List String × List String
  | [] => ([], [])
  | c :: cs =>
    let variant := raw.push c
    if valid variant then
      let r := probeLoop valid raw cs
      (variant :: r.1, variant :: r.2)
    else
      ([], [variant])

/-- Variant resolution of `Worker.run`: write the raw code, read the check
cell; if valid the raw code is the sole variant, otherwise probe lettered
suffixes in alphabetical order.  The first component is
`valid_product_codes`, the second the trace of codes written to `I4`. -/
def resolveVariants (check : String → String) (raw : String) : List String × List String :=
  if checkIsValid check raw then
    ([raw], [raw])
  else
    let r := probeLoop (checkIsValid check) raw suffixLetters
    (r.1, raw :: r.2)

lemma probeLoop_fst_eq_takeWhile (valid : String → Bool) (raw : String) (cs : List Char) :
    (probeLoop valid raw cs).1 = (cs.map (fun c => raw.push c)).takeWhile valid := by
  induction cs with
  | nil => rfl
  | cons c cs ih =>
    by_cases h : valid (raw.push c) = true
    · simp [probeLoop, h, List.takeWhile_cons, ih]
    · simp [probeLoop, h, List.takeWhile_cons]

/-- C1: if the oracle's check for the raw code is not the `'empty'` sentinel,
resolution returns exactly `[rawCode]` and the raw code is the only code ever
written to the oracle (no lettered suffix is probed); otherwise the result is
the maximal initial run of valid suffixed codes `rawCode+A, rawCode+B, ...`
in alphabetical order, stopping at the first invalid suffix — in particular
if `A` is valid and `B` invalid the result is exactly `[rawCode+A]` no matter
what later letters would have answered. -/
theorem C1_variant_resolution (check : String → String) (raw : String) :
    (checkIsValid check raw = true →
      resolveVariants check raw = ([raw], [raw])) ∧
    (checkIsValid check raw = false →
      (resolveVariants check raw).1 =
        (suffixLetters.map (fun c => raw.push c)).takeWhile (checkIsValid check)) ∧
    (checkIsValid check raw = false →
      checkIsValid check (raw.push 'A') = true →
      checkIsValid check (raw.push 'B') = false →
      (resolveVariants check raw).1 = [raw.push 'A']) := by
  refine ⟨?_, ?_, ?_⟩
  · intro h
    simp [resolveVariants, h]
  · intro h
    simp only [resolveVariants, h, Bool.false_eq_true, if_false]
    exact probeLoop_fst_eq_takeWhile (checkIsValid check) raw suffixLetters
  · intro h hA hB
    simp only [resolveVariants, h, Bool.false_eq_true, if_false]
    rw [probeLoop_fst_eq_takeWhile]
    have hletters : suffixLetters = 'A' :: 'B' :: "CDEFGHIJKLMNOPQRSTUVWXYZ".toList := by
      decide
    rw [hletters]
    simp [List.takeWhile_cons, hA, hB]

/-- Witness for C1: a concrete oracle on which the base code `"X"` is invalid,
`"XA"` and `"XC"` are valid and `"XB"` is invalid resolves to exactly
`["XA"]` (gap-stopping); an oracle validating `"Y"` itself resolves to
`(["Y"], ["Y"])`. -/
theorem C1_variant_resolution_witness :
    (resolveVariants
      (fun s => if s = "XA" ∨ s = "XC" then "ok" else "Empty ") "X").1 = ["XA"] ∧
    resolveVariants (fun _ => "found") "Y" = (["Y"], ["Y"]) := by
  constructor
  · exact (C1_variant_resolution
      (fun s => if s = "XA" ∨ s = "XC" then "ok" else "Empty ") "X").2.2
      (by decide) (by decide) (by decide)
  · exact (C1_variant_resolution (fun _ => "found") "Y").1 (by decide)

/-! ## Classification (`Worker._process_product`, lines 290-302) -/

/-- Python `str.upper()` (ASCII portion). -/
def pyUpper (s : List Char) : List Char :=
  s.map Char.toUpper

/-- `product_code.upper().startswith(pre)` for a literal prefix `pre`. -/
def upperStartsWith (code : String) (pre : List Char) : Bool :=
  pre.isPrefixOf (pyUpper code.data)

/-- The hybrid classifier: reserved `TS-`/`TF-` prefixes (checked on the
upper-cased code) bypass the oracle; otherwise the classification is
`str(db_sheet.range('D3').value)[:2].upper()`, where `d3` is the oracle's
product-type field for the loaded product. -/
def classify (d3 : String) (code : String) : String :=
  if upperStartsWith code ['T', 'S', '-'] then "TS"
  else if upperStartsWith code ['T', 'F', '-'] then "TF"
  else String.mk (pyUpper (d3.data.take 2))

lemma charUpper_t : Char.toUpper 't' = 'T' := by decide
lemma charUpper_T : Char.toUpper 'T' = 'T' := by decide
lemma charUpper_s : Char.toUpper 's' = 'S' := by decide
lemma charUpper_S : Char.toUpper 'S' = 'S' := by decide
lemma charUpper_f : Char.toUpper 'f' = 'F' := by decide
lemma charUpper_F : Char.toUpper 'F' = 'F' := by decide
lemma charUpper_dash : Char.toUpper '-' = '-' := by decide

lemma ts_prefix_of_chars (t f : Char) (rest : List Char)
    (ht : t = 'T' ∨ t = 't') (hf : f = 'S' ∨ f = 's') :
    (['T', 'S', '-'].isPrefixOf (pyUpper (t :: f :: '-' :: rest))) = true := by
  rcases ht with rfl | rfl <;> rcases hf with rfl | rfl <;>
    simp [pyUpper, List.isPrefixOf, charUpper_t, charUpper_T, charUpper_s, charUpper_S,
      charUpper_dash]

lemma tf_prefix_of_chars (t f : Char) (rest : List Char)
    (ht : t = 'T' ∨ t = 't') (hf : f = 'F' ∨ f = 'f') :
    (['T', 'F', '-'].isPrefixOf (pyUpper (t :: f :: '-' :: rest))) = true := by
  rcases ht with rfl | rfl <;> rcases hf with rfl | rfl <;>
    simp [pyUpper, List.isPrefixOf, charUpper_t, charUpper_T, charUpper_f, charUpper_F,
      charUpper_dash]

lemma ts_tf_prefix_exclusive (l : List Char) :
    (['T', 'S', '-'].isPrefixOf l) = true → (['T', 'F', '-'].isPrefixOf l) = false := by
  intro h
  match l with
  | [] => cases h
  | [a] => simp [List.isPrefixOf] at h
  | a :: b :: l2 =>
    simp only [List.isPrefixOf, Bool.and_eq_true, beq_iff_eq] at h
    obtain ⟨rfl, rfl, _⟩ := h
    simp [List.isPrefixOf]

/-- C6: classification is a two-step decision.  A code whose upper-cased form
starts with `TS-` (resp. `TF-`) — i.e. whose first three characters are
`T`/`t`, `S`/`s` (resp. `F`/`f`), `-` in either case — is classified `TS`
(resp. `TF`) and the oracle's product-type field is not consulted (the result
is the same for every value of that field); otherwise the classification is
the first two characters of the oracle-computed field, upper-cased. -/
theorem C6_classification (d3 : String) (code : String) :
    (∀ t f rest, code.data = t :: f :: '-' :: rest →
      (t = 'T' ∨ t = 't') → (f = 'S' ∨ f = 's') → classify d3 code = "TS") ∧
    (∀ t f rest, code.data = t :: f :: '-' :: rest →
      (t = 'T' ∨ t = 't') → (f = 'F' ∨ f = 'f') → classify d3 code = "TF") ∧
    ((upperStartsWith code ['T', 'S', '-'] = true ∨
      upperStartsWith code ['T', 'F', '-'] = true) →
      ∀ d3a, classify d3a code = classify d3 code) ∧
    (upperStartsWith code ['T', 'S', '-'] = false →
      upperStartsWith code ['T', 'F', '-'] = false →
      classify d3 code = String.mk (pyUpper (d3.data.take 2))) := by
  refine ⟨?_, ?_, ?_, ?_⟩
  · intro t f rest hdata ht hf
    have h1 : upperStartsWith code ['T', 'S', '-'] = true := by
      rw [upperStartsWith, hdata]
      exact ts_prefix_of_chars t f rest ht hf
    simp [classify, h1]
  · intro t f rest hdata ht hf
    have h1 : upperStartsWith code ['T', 'F', '-'] = true := by
      rw [upperStartsWith, hdata]
      exact tf_prefix_of_chars t f rest ht hf
    have h2 : upperStartsWith code ['T', 'S', '-'] = false := by
      cases h : upperStartsWith code ['T', 'S', '-'] with
      | false => rfl
      | true =>
        have := ts_tf_prefix_exclusive (pyUpper code.data) h
        rw [upperStartsWith] at h1
        rw [this] at h1
        cases h1
    simp [classify, h1, h2]
  · intro h d3a
    rcases h with h | h
    · simp [classify, h]
    · have h2 : upperStartsWith code ['T', 'S', '-'] = false := by
        cases hts : upperStartsWith code ['T', 'S', '-'] with
        | false => rfl
        | true =>
          have := ts_tf_prefix_exclusive (pyUpper code.data) hts
          rw [upperStartsWith] at h
          rw [this] at h
          cases h
      simp [classify, h, h2]
  · intro h1 h2
    simp [classify, h1, h2]

/-- Witness for C6: the lower-case prefixed code `"ts-104"` classifies as
`TS` whatever the oracle field holds, and the non-prefixed code `"K-77"`
takes the oracle field's first two characters upper-cased (`"ds3"` ↦ `"DS"`). -/
theorem C6_classification_witness :
    classify "irrelevant" "ts-104" = "TS" ∧ classify "ds3" "K-77" = "DS" := by
  constructor
  · exact (C6_classification "irrelevant" "ts-104").1 't' 's' "104".data (by decide)
      (Or.inr rfl) (Or.inr rfl)
  · have h := (C6_classification "ds3" "K-77").2.2.2 (by decide) (by decide)
    rw [h]; decide

/-! ## Conditional sheets and technical drawings
(`Worker._process_product` lines 304-340, `Worker.run` lines 352-361) -/

def MF_SHEET_NAME : String := "برنامه فنرپیچ"
def ST_SHEET_NAME : String := "برنامه سیم تابنده"
def KL_SHEET_NAME : String := "برنامه خم لوله‌ای"

/-- Which conditional sheets `_process_product` exports for a classification:
`MF` prints the MF sheet; `DS/DF/NL/DL` print the ST sheet; `NL/DL`
additionally print the KL sheet. -/
def conditionalSheetNames (productType : String) : List String :=
  (if productType = "MF" then [MF_SHEET_NAME] else []) ++
  (if productType ∈ (["DS", "DF", "NL", "DL"] : List String) then [ST_SHEET_NAME] else []) ++
  (if productType ∈ (["NL", "DL"] : List String) then [KL_SHEET_NAME] else [])

/-- `technical_drawing_paths.get(product_type)` of `Worker.run`. -/
def technical_drawing_paths (productType : String) : Option String :=
  if productType = "TS" then Option.some "\\\\fileserver\\mohandesi\\PDF Plan\\ترموسوئیچ"
  else if productType = "TF" then
    Option.some "\\\\fileserver\\mohandesi\\PDF Plan\\ترموفیوز\\نقشه های معتبر"
  else if productType = "DS" then
    Option.some "\\\\fileserver\\mohandesi\\PDF Plan\\هیتر سیمی\\نقشه های معتبر"
  else if productType = "DF" then
    Option.some "\\\\fileserver\\mohandesi\\PDF Plan\\فویلی\\نقشه های معتبر"
  else if productType = "NL" then
    Option.some "\\\\fileserver\\mohandesi\\PDF Plan\\لوله ای\\نقشه های معتبر"
  else if productType = "DL" then
    Option.some "\\\\fileserver\\mohandesi\\PDF Plan\\لوله ای\\نقشه های معتبر"
  else if productType = "MF" then
    Option.some "\\\\fileserver\\mohandesi\\PDF Plan\\میله ای\\نقشه های معتبر"
  else if productType = "MR" then
    Option.some "\\\\fileserver\\mohandesi\\PDF Plan\\میله ای\\نقشه های معتبر"
  else Option.none

/-- Number of conditional-sheet PDFs appended to the main merger for a
classification, given which sheet exports succeed
(`print_conditional_sheet` returning `True`). -/
def conditionalPdfCount (printOk : String → Bool) (productType : String) : Nat :=
  ((conditionalSheetNames productType).filter printOk).length

/-- Number of technical-drawing copies: one when the classification has a
drawing source folder and the drawing file exists there, else zero. -/
def drawingCopyCount (productType : String) (existsOnDisk : Bool) : Nat :=
  match technical_drawing_paths productType with
  | Option.some _ => if existsOnDisk then 1 else 0
  | Option.none => 0

/-- Counterexample to C3 as stated: classification `TS` is not in the
conditional mapping `{MF, DS, DF, NL, DL}`, and indeed produces zero
conditional-sheet PDFs, but it does have a drawing source folder, so when the
drawing file exists one technical-drawing copy is produced — not zero. -/
theorem C3_counterexample :
    ("TS" ∉ (["MF", "DS", "DF", "NL", "DL"] : List String)) ∧
    conditionalPdfCount (fun _ => true) "TS" = 0 ∧
    drawingCopyCount "TS" true = 1 := by
  decide

/-- C3 (amended): a classification outside the conditional mapping
`{MF, DS, DF, NL, DL}` produces zero conditional-sheet PDFs, and it
additionally produces zero technical-drawing copies when it is also outside
the remaining keys `{TS, TF, MR}` of the drawing-folder mapping. -/
theorem C3_unmapped_classification (productType : String) (printOk : String → Bool)
    (existsOnDisk : Bool)
    (h : productType ∉ (["MF", "DS", "DF", "NL", "DL"] : List String)) :
    conditionalPdfCount printOk productType = 0 ∧
    (productType ∉ (["TS", "TF", "MR"] : List String) →
      drawingCopyCount productType existsOnDisk = 0) := by
  simp only [List.mem_cons, List.not_mem_nil, or_false, not_or] at h
  obtain ⟨h1, h2, h3, h4, h5⟩ := h
  constructor
  · simp [conditionalPdfCount, conditionalSheetNames, h1, h2, h3, h4, h5]
  · intro h'
    simp only [List.mem_cons, List.not_mem_nil, or_false, not_or] at h'
    obtain ⟨h6, h7, h8⟩ := h'
    simp [drawingCopyCount, technical_drawing_paths, h1, h2, h3, h4, h5, h6, h7, h8]

/-- Witness for the amended C3 at the unmapped classification `"XX"`: no
conditional sheet and no drawing copy. -/
theorem C3_unmapped_classification_witness :
    conditionalPdfCount (fun _ => true) "XX" = 0 ∧ drawingCopyCount "XX" true = 0 := by
  have h := C3_unmapped_classification "XX" (fun _ => true) true (by decide)
  exact ⟨h.1, h.2 (by decide)⟩

/-! ## Per-document error flow
(`Worker.print_conditional_sheet` lines 190-208, `Worker._process_product`
lines 264-267)

An oracle export (`ExportAsFixedFormat`) either succeeds or raises; raised
Python exceptions are modelled with `Except`.  The standard-job export on
line 266 is not wrapped in any `try`, so its exception propagates out of
`_process_product`; `print_conditional_sheet` wraps its export in
`try/except Exception` and returns `False` instead. -/

inductive PyError where
  | exportError (msg : String)
  | otherError (msg : String)
deriving DecidableEq, Repr

/-- One standard LOM job (`main`/`timing`/`preparation`): its target PDF
path, whether the data-presence probe succeeded (`has_data` and a non-empty
`print_range`), and whether its configuration toggle is on
(`print_this_pdf`). -/
structure JobSpec where
  path : String
  hasData : Bool
  enabled : Bool
deriving DecidableEq, Repr

/-- The `for job in LOM_PRINT_JOBS` loop of `_process_product`: each exported
PDF path is collected; an exception from an export is NOT caught inside the
loop and aborts it (propagating out of `_process_product`). -/
def runStandardJobs (exportPdf : String → Except PyError Unit) :
    List JobSpec → Except PyError (List String)
  | [] => Except.ok []
  | j :: js =>
    if j.hasData && j.enabled then
      match exportPdf j.path with
      | Except.error e => Except.error e
      | Except.ok _ =>
        match runStandardJobs exportPdf js with
        | Except.error e => Except.error e
        | Except.ok rest => Except.ok (j.path :: rest)
    else
      runStandardJobs exportPdf js

/-- `Worker.print_conditional_sheet`: the export is wrapped in
`try/except Exception`; any failure is reported and turned into `False`. -/
def print_conditional_sheet (exportPdf : String → Except PyError Unit)
    (path : String) : Bool :=
  match exportPdf path with
  | Except.ok _ => true
  | Except.error _ => false

/-- The conditional-sheet section of `_process_product`: each triggered sheet
is attempted in turn and appended to the main merger only when its print
succeeded; no exception escapes. -/
def runConditionalJobs (exportPdf : String → Except PyError Unit)
    (paths : List String) : List String :=
  paths.filter (fun p => print_conditional_sheet exportPdf p)

/-- Document production of `_process_product` for one variant: standard jobs
first (an export exception propagates), then the conditional sheets (export
exceptions caught per sheet). -/
def processProductDocs (exportPdf : String → Except PyError Unit)
    (standard : List JobSpec) (conds : List String) :
    Except PyError (List String × List String) :=
  match runStandardJobs exportPdf standard with
  | Except.error e => Except.error e
  | Except.ok s => Except.ok (s, runConditionalJobs exportPdf conds)

/-- Counterexample to C4 as stated: an `ExportError` raised while exporting
the standard LOM document of a variant is not caught at the document level —
the whole per-product run aborts with the error instead of continuing with
the next job (here the timing job) of the same variant. -/
theorem C4_counterexample :
    processProductDocs
      (fun p => if p = "X_LOM.pdf" then Except.error (PyError.exportError "print refused")
                else Except.ok ())
      [⟨"X_LOM.pdf", true, true⟩, ⟨"X_timing.pdf", true, true⟩] [] =
      Except.error (PyError.exportError "print refused") := by
  rfl

lemma runStandardJobs_ok (exportPdf : String → Except PyError Unit)
    (standard : List JobSpec)
    (h : ∀ j ∈ standard, j.hasData = true → j.enabled = true →
      exportPdf j.path = Except.ok ()) :
    ∃ res, runStandardJobs exportPdf standard = Except.ok res := by
  induction standard with
  | nil => exact ⟨[], rfl⟩
  | cons j js ih =>
    obtain ⟨res, hres⟩ := ih (fun x hx => h x (List.mem_cons_of_mem _ hx))
    by_cases hcond : (j.hasData && j.enabled) = true
    · obtain ⟨hd, he⟩ := Bool.and_eq_true_iff.mp hcond
      have hok := h j (List.mem_cons_self j js) hd he
      refine ⟨j.path :: res, ?_⟩
      simp [runStandardJobs, hcond, hok, hres]
    · refine ⟨res, ?_⟩
      simp [runStandardJobs, hcond, hres]

/-- C4 (amended): an oracle export failure is caught at the level of the
single document only for conditional-sheet jobs — the conditional chain
continues past a failed sheet — while the whole per-product run succeeds
whenever every exported standard job succeeds; but an `ExportError` raised by
a standard job (LOM / timing / preparation) propagates out of the per-product
processing and aborts it. -/
theorem C4_error_propagation (exportPdf : String → Except PyError Unit)
    (standard : List JobSpec) (conds : List String) :
    ((∀ j ∈ standard, j.hasData = true → j.enabled = true →
        exportPdf j.path = Except.ok ()) →
      processProductDocs exportPdf standard conds =
        Except.ok ((runStandardJobs exportPdf standard).toOption.getD [],
          runConditionalJobs exportPdf conds)) ∧
    (∀ p ps, runConditionalJobs exportPdf (p :: ps) =
      (if print_conditional_sheet exportPdf p then [p] else []) ++
        runConditionalJobs exportPdf ps) ∧
    (∀ e j js, j.hasData = true → j.enabled = true →
      exportPdf j.path = Except.error e →
      runStandardJobs exportPdf (j :: js) = Except.error e) := by
  refine ⟨?_, ?_, ?_⟩
  · intro h
    obtain ⟨res, hres⟩ := runStandardJobs_ok exportPdf standard h
    simp [processProductDocs, hres, Except.toOption]
  · intro p ps
    by_cases hp : print_conditional_sheet exportPdf p = true
    · simp [runConditionalJobs, List.filter_cons, hp]
    · simp [runConditionalJobs, List.filter_cons, hp]
  · intro e j js hd he hexp
    simp [runStandardJobs, hd, he, hexp]

/-- Witness for the amended C4: a failing LOM export aborts the standard-job
loop with its error, while with an always-succeeding oracle the per-product
run returns all standard paths and the conditional results. -/
theorem C4_error_propagation_witness :
    runStandardJobs
      (fun p => if p = "X_LOM.pdf" then Except.error (PyError.exportError "boom")
                else Except.ok ())
      [⟨"X_LOM.pdf", true, true⟩, ⟨"X_timing.pdf", true, true⟩] =
      Except.error (PyError.exportError "boom") ∧
    processProductDocs (fun _ => Except.ok ()) [⟨"A_LOM.pdf", true, true⟩] ["mf"] =
      Except.ok (["A_LOM.pdf"], ["mf"]) := by
  constructor
  · exact (C4_error_propagation
      (fun p => if p = "X_LOM.pdf" then Except.error (PyError.exportError "boom")
                else Except.ok ()) [] []).2.2
      (PyError.exportError "boom") ⟨"X_LOM.pdf", true, true⟩
      [⟨"X_timing.pdf", true, true⟩] rfl rfl rfl
  · have h := (C4_error_propagation (fun _ => Except.ok ())
      [⟨"A_LOM.pdf", true, true⟩] ["mf"]).1 (fun j hj h1 h2 => rfl)
    rw [h]
    rfl

/-! ## Temp-file cleanup (`Worker.run`, lines 558-577)

`files_to_delete` is the temp-file registry accumulated during the order;
cleanup runs when the `delete_temp_files` toggle is on and the registry is
non-empty (Python truthiness of the list), first removing the just-written
final main-bundle path from the list (`list.remove`, which drops the first
occurrence), then attempting deletion of every remaining file that exists. -/

/-- The list of paths for which cleanup attempts `os.remove`. -/
def cleanupDeletedFiles (deleteTempFiles : Bool) (files_to_delete : List String)
    (final_main_pdf_path : Option String) (existsOnDisk : String → Bool) : List String :=
  if deleteTempFiles && !files_to_delete.isEmpty then
    (match final_main_pdf_path with
     | Option.some p => if p ∈ files_to_delete then files_to_delete.erase p else files_to_delete
     | Option.none => files_to_delete).filter existsOnDisk
  else
    []

/-- C2: for an order whose main merge target was non-empty (so a final main
PDF was written at `p`), the cleanup phase never deletes `p` — even if `p`
was registered in the temp-file registry earlier in processing — provided the
registry registered the path at most once. -/
theorem C2_cleanup_preserves_final (deleteTempFiles : Bool)
    (files_to_delete : List String) (p : String) (existsOnDisk : String → Bool)
    (hreg : files_to_delete.count p ≤ 1) :
    p ∉ cleanupDeletedFiles deleteTempFiles files_to_delete (Option.some p)
      existsOnDisk := by
  by_cases hguard : (deleteTempFiles && !files_to_delete.isEmpty) = true
  · by_cases hp : p ∈ files_to_delete
    · simp only [cleanupDeletedFiles, hguard, if_true, hp, if_pos]
      intro hmem
      have h1 := (List.mem_filter.mp hmem).1
      have h2 : (files_to_delete.erase p).count p = 0 := by
        have := List.count_erase_self p files_to_delete
        omega
      exact (List.count_eq_zero.mp h2) h1
    · simp only [cleanupDeletedFiles, hguard, if_true, hp, if_neg, if_false]
      intro hmem
      exact hp (List.mem_filter.mp hmem).1
  · simp [cleanupDeletedFiles, hguard]

/-- Witness for C2: with cleanup enabled, a registry that contains the final
main PDF path alongside genuine temp files, and every file present on disk,
the final path is not among the deletion attempts. -/
theorem C2_cleanup_preserves_final_witness :
    "out/12/plan (12).pdf" ∉
      cleanupDeletedFiles true
        ["out/12/K-77_LOM.pdf", "out/12/plan (12).pdf", "out/12/K-77_timing.pdf"]
        (Option.some "out/12/plan (12).pdf") (fun _ => true) :=
  C2_cleanup_preserves_final true
    ["out/12/K-77_LOM.pdf", "out/12/plan (12).pdf", "out/12/K-77_timing.pdf"]
    "out/12/plan (12).pdf" (fun _ => true) (by decide)

/-! ## The preparation job (`Worker._process_product`, lines 240-288)

The `"آماده سازی"` iteration of the job loop: data presence requires cell
`U5` non-`None` and a positive `find_last_numeric_row` over `S5:S24`
(otherwise the `continue` skips the whole iteration); the PDF export is gated
by the `print_preparation_pdf` toggle, and the tabular extraction over
`T5:V24` by the independent `create_preparation_excel` toggle. -/

/-- One extracted preparation row (`new_row` of `_process_product`). -/
structure PrepRow where
  orderNum : String
  productCode : String
  desc : Cell
  qty : Cell
  cutSize : Cell
deriving DecidableEq, Repr

/-- `for row_data in prep_data_range: if row_data[0]: append {...}` —
one row per `T5:V24` block whose first cell is truthy, carrying the order
number and product code forward. -/
def extractPrepRows (orderNum productCode : String)
    (block : List (Cell × Cell × Cell)) : List PrepRow :=
  (block.filter (fun r => r.1.truthy)).map
    (fun r => ⟨orderNum, productCode, r.1, r.2.1, r.2.2⟩)

/-- The two configuration toggles relevant to the preparation job. -/
structure PrepSettings where
  print_preparation_pdf : Bool
  create_preparation_excel : Bool
deriving DecidableEq, Repr

/-- The preparation iteration: returns the exported preparation-PDF path (if
any) and the extracted preparation rows. -/
def preparationJob (cfg : PrepSettings) (u5 : Cell) (colS : List Cell)
    (block : List (Cell × Cell × Cell)) (orderNum productCode : String) :
    Option String × List PrepRow :=
  if u5 = Cell.none then (Option.none, [])
  else if find_last_numeric_row 5 colS = 0 then (Option.none, [])
  else
    ((if cfg.print_preparation_pdf then
        Option.some (productCode ++ "_آماده سازی.pdf")
      else Option.none),
     (if cfg.create_preparation_excel then
        extractPrepRows orderNum productCode block
      else []))

/-- C8: with the preparation-PDF toggle disabled no preparation PDF is ever
produced, whatever data is present; the extracted rows do not depend on that
toggle at all; and whenever preparation data is present (`U5` non-null and a
positive last data row) and the independent table toggle is on, the
extraction still takes place. -/
theorem C8_preparation_toggle (cfg : PrepSettings) (u5 : Cell) (colS : List Cell)
    (block : List (Cell × Cell × Cell)) (orderNum productCode : String) :
    (cfg.print_preparation_pdf = false →
      (preparationJob cfg u5 colS block orderNum productCode).1 = Option.none) ∧
    ((preparationJob cfg u5 colS block orderNum productCode).2 =
      (preparationJob ⟨true, cfg.create_preparation_excel⟩ u5 colS block
        orderNum productCode).2) ∧
    (u5 ≠ Cell.none → find_last_numeric_row 5 colS ≠ 0 →
      cfg.create_preparation_excel = true →
      (preparationJob cfg u5 colS block orderNum productCode).2 =
        extractPrepRows orderNum productCode block) := by
  refine ⟨?_, ?_, ?_⟩
  · intro h
    by_cases h5 : u5 = Cell.none
    · simp [preparationJob, h5]
    · by_cases hrow : find_last_numeric_row 5 colS = 0
      · simp [preparationJob, h5, hrow]
      · simp [preparationJob, h5, hrow, h]
  · by_cases h5 : u5 = Cell.none
    · simp [preparationJob, h5]
    · by_cases hrow : find_last_numeric_row 5 colS = 0
      · simp [preparationJob, h5, hrow]
      · simp [preparationJob, h5, hrow]
  · intro h5 hrow hcreate
    simp [preparationJob, h5, hrow, hcreate]

/-- Witness for C8: preparation data present (`U5 = num 1`, last numeric row
5), PDF toggle off and table toggle on — no PDF path, but the single truthy
block row is extracted. -/
theorem C8_preparation_toggle_witness :
    (preparationJob ⟨false, true⟩ (Cell.num 1) [Cell.num 2]
      [(Cell.str "wire", Cell.num 4, Cell.str "55mm"),
       (Cell.none, Cell.none, Cell.none)] "12" "K-77").1 = Option.none ∧
    (preparationJob ⟨false, true⟩ (Cell.num 1) [Cell.num 2]
      [(Cell.str "wire", Cell.num 4, Cell.str "55mm"),
       (Cell.none, Cell.none, Cell.none)] "12" "K-77").2 =
      [⟨"12", "K-77", Cell.str "wire", Cell.num 4, Cell.str "55mm"⟩] := by
  constructor
  · exact (C8_preparation_toggle ⟨false, true⟩ (Cell.num 1) [Cell.num 2] _ "12" "K-77").1 rfl
  · rw [(C8_preparation_toggle ⟨false, true⟩ (Cell.num 1) [Cell.num 2] _ "12" "K-77").2.2
      (by decide) (by decide) rfl]
    rfl

/-! ## Sub-component expansion (`Worker.run`, lines 499-525)

`re.findall(r'(TS-\d+|TF-\d+)', cell_value, re.IGNORECASE)` over every cell
of the bill-of-materials range `C5:C64`, then
`sorted(list(set(sub_components)))`, then one `_process_product` call per
collected code. -/

/-- Attempt of the regex alternative `TS-\d+|TF-\d+` (ignore-case) at the
head of the text: two prefix letters, a dash and a maximal non-empty digit
run; returns the matched characters (original case, as `re.findall` yields)
and the remaining text after the match. -/
def matchTSTF : List Char → Option (List Char × List Char)
  | t :: f :: d :: rest =>
    if (t = 'T' ∨ t = 't') ∧ (f = 'S' ∨ f = 's' ∨ f = 'F' ∨ f = 'f') ∧ d = '-' then
      if (rest.takeWhile (fun c => c.isDigit)).isEmpty then Option.none
      else
        Option.some (t :: f :: d :: rest.takeWhile (fun c => c.isDigit),
          rest.drop (rest.takeWhile (fun c => c.isDigit)).length)
    else Option.none
  | _ => Option.none

/-- The left-to-right scan of `re.findall`: at each position try the
alternative; on a match, emit it and continue after it, otherwise advance one
character.  `fuel` bounds the recursion by the text length. -/
def findAllAux : Nat → List Char → List (List Char)
  | 0, _ => []
  | _ + 1, [] => []
  | fuel + 1, c :: rest =>
    match matchTSTF (c :: rest) with
    | Option.some (m, remain) => m :: findAllAux fuel remain
    | Option.none => findAllAux fuel rest

/-- `re.findall(r'(TS-\d+|TF-\d+)', s, re.IGNORECASE)`. -/
def findallTSTF (s : String) : List String :=
  (findAllAux s.data.length s.data).map String.mk

/-- `if isinstance(cell_value, str): found_codes = re.findall(...)` —
non-string BOM cells contribute nothing. -/
def cellMatches : Cell → List String
  | Cell.str s => findallTSTF s
  | _ => []

/-- Lexicographic (code-point) comparison of character lists: the order
Python `sorted` uses on strings. -/
def charListLe : List Char → List Char → Bool
  | [], _ => true
  | _ :: _, [] => false
  | a :: as, b :: bs =>
    if a < b then true
    else if b < a then false
    else charListLe as bs

/-- Python string comparison `a <= b`. -/
def stringLe (a b : String) : Bool :=
  charListLe a.data b.data

lemma charListLe_total : ∀ a b : List Char, charListLe a b = true ∨ charListLe b a = true := by
  intro a
  induction a with
  | nil => intro b; left; rfl
  | cons x xs ih =>
    intro b
    cases b with
    | nil => right; rfl
    | cons y ys =>
      by_cases hxy : x < y
      · left; simp [charListLe, hxy]
      · by_cases hyx : y < x
        · right; simp [charListLe, hyx]
        · rcases ih ys with h | h
          · left; simp [charListLe, hxy, hyx, h]
          · right; simp [charListLe, hxy, hyx, h]

lemma charListLe_trans : ∀ a b c : List Char,
    charListLe a b = true → charListLe b c = true → charListLe a c = true := by
  intro a
  induction a with
  | nil => intro b c _ _; rfl
  | cons x xs ih =>
    intro b c hab hbc
    cases b with
    | nil => simp [charListLe] at hab
    | cons y ys =>
      cases c with
      | nil => simp [charListLe] at hbc
      | cons z zs =>
        by_cases hxy : x < y
        · by_cases hyz : y < z
          · simp [charListLe, lt_trans hxy hyz]
          · by_cases hzy : z < y
            · simp [charListLe, hyz, hzy] at hbc
            · have hyzeq : y = z := le_antisymm (le_of_not_lt hzy) (le_of_not_lt hyz)
              subst hyzeq
              simp [charListLe, hxy]
        · by_cases hyx : y < x
          · simp [charListLe, hxy, hyx] at hab
          · have hxyeq : x = y := le_antisymm (le_of_not_lt hyx) (le_of_not_lt hxy)
            subst hxyeq
            simp only [charListLe, if_neg hxy, if_neg hyx] at hab
            by_cases hxz : x < z
            · simp [charListLe, hxz]
            · by_cases hzx : z < x
              · simp [charListLe, hxz, hzx] at hbc
              · have hxzeq : x = z := le_antisymm (le_of_not_lt hzx) (le_of_not_lt hxz)
                subst hxzeq
                simp only [charListLe, if_neg hxz, if_neg hzx] at hbc ⊢
                exact ih ys zs hab hbc

instance : IsTotal String (fun a b => stringLe a b = true) :=
  ⟨fun a b => charListLe_total a.data b.data⟩

instance : IsTrans String (fun a b => stringLe a b = true) :=
  ⟨fun a b c => charListLe_trans a.data b.data c.data⟩

instance : DecidableRel (fun a b : String => stringLe a b = true) :=
  fun a b => inferInstanceAs (Decidable (stringLe a b = true))

/-- `sub_components = sorted(list(set(sub_components)))` applied to the codes
found across all rows of the BOM range (`extend` per string cell). -/
def extractSubComponents (bom : List Cell) : List String :=
  List.insertionSort (fun a b => stringLe a b = true)
    ((bom.map cellMatches).flatten.dedup)

/-- The feed order of the nested loops of `Worker.run`: each valid variant is
fed to `_process_product`, followed by each of its collected sub-component
codes, which are fed to the same `_process_product` and nothing more (no
second-level scan). -/
def variantFeeds (bomOf : String → List Cell) : List String → List String
  | [] => []
  | v :: vs => (v :: extractSubComponents (bomOf v)) ++ variantFeeds bomOf vs

/-- All codes fed through the per-product pipeline for one order line with
raw code `raw`, where `bomOf v` is the oracle's BOM range once primed with
product code `v`. -/
def processLineFeeds (check : String → String) (bomOf : String → List Cell)
    (raw : String) : List String :=
  variantFeeds bomOf (resolveVariants check raw).1

lemma variantFeeds_eq_flatten (bomOf : String → List Cell) (l : List String) :
    variantFeeds bomOf l =
      (l.map (fun v => v :: extractSubComponents (bomOf v))).flatten := by
  induction l with
  | nil => rfl
  | cons v vs ih => simp [variantFeeds, ih]

lemma mem_extractSubComponents (bom : List Cell) (s : String) :
    s ∈ extractSubComponents bom ↔ ∃ c ∈ bom, s ∈ cellMatches c := by
  rw [extractSubComponents,
    (List.perm_insertionSort (fun a b => stringLe a b = true) _).mem_iff,
    List.mem_dedup, List.mem_flatten]
  constructor
  · rintro ⟨l, hl, hs⟩
    obtain ⟨c, hc, rfl⟩ := List.mem_map.mp hl
    exact ⟨c, hc, hs⟩
  · rintro ⟨c, hc, hs⟩
    exact ⟨cellMatches c, List.mem_map.mpr ⟨c, hc, rfl⟩, hs⟩

lemma nodup_extractSubComponents (bom : List Cell) :
    (extractSubComponents bom).Nodup :=
  ((List.perm_insertionSort (fun a b => stringLe a b = true) _).nodup_iff).mpr
    (List.nodup_dedup _)

/-- C5: for every product variant the sub-component expander returns a
deduplicated (`Nodup`, each code counted at most once), lexicographically
sorted list whose members are exactly the codes matched in some row of that
variant's BOM range; the feed sequence of the order-line loop is each variant
followed by its own sub-components, and every fed code is either a resolved
variant or a direct (first-level) sub-component of one — sub-components are
never themselves expanded. -/
theorem C5_subcomponent_expansion (check : String → String)
    (bomOf : String → List Cell) (raw : String) :
    (∀ v : String,
      (extractSubComponents (bomOf v)).Nodup ∧
      List.Sorted (fun a b => stringLe a b = true) (extractSubComponents (bomOf v)) ∧
      (∀ s, s ∈ extractSubComponents (bomOf v) ↔ ∃ c ∈ bomOf v, s ∈ cellMatches c) ∧
      (∀ s, (extractSubComponents (bomOf v)).count s ≤ 1)) ∧
    processLineFeeds check bomOf raw =
      ((resolveVariants check raw).1.map
        (fun v => v :: extractSubComponents (bomOf v))).flatten ∧
    (∀ c ∈ processLineFeeds check bomOf raw,
      c ∈ (resolveVariants check raw).1 ∨
      ∃ v ∈ (resolveVariants check raw).1, c ∈ extractSubComponents (bomOf v)) := by
  refine ⟨?_, ?_, ?_⟩
  · intro v
    refine ⟨nodup_extractSubComponents (bomOf v), ?_, mem_extractSubComponents (bomOf v), ?_⟩
    · exact List.sorted_insertionSort _ _
    · intro s
      exact List.nodup_iff_count_le_one.mp (nodup_extractSubComponents (bomOf v)) s
  · exact variantFeeds_eq_flatten bomOf _
  · intro c hc
    rw [processLineFeeds, variantFeeds_eq_flatten] at hc
    obtain ⟨l, hl, hcl⟩ := List.mem_flatten.mp hc
    obtain ⟨v, hv, rfl⟩ := List.mem_map.mp hl
    rcases List.mem_cons.mp hcl with rfl | hsub
    · exact Or.inl hv
    · exact Or.inr ⟨v, hv, hsub⟩

/-- Witness for C5: a base-valid code `"P1"` whose BOM text mentions
`TF-30` twice and `ts-12` once feeds exactly `P1` then the deduplicated,
sorted sub-components `TF-30`, `ts-12`. -/
theorem C5_subcomponent_expansion_witness :
    processLineFeeds (fun s => if s = "P1" then "x" else "empty")
      (fun v => if v = "P1" then [Cell.str "2x TF-30 + ts-12; TF-30", Cell.num 4] else [])
      "P1" = ["P1", "TF-30", "ts-12"] := by
  rw [(C5_subcomponent_expansion (fun s => if s = "P1" then "x" else "empty")
    (fun v => if v = "P1" then [Cell.str "2x TF-30 + ts-12; TF-30", Cell.num 4] else [])
    "P1").2.1]
  decide

/-! ## Shape of the scanned sub-component codes (C10) -/

lemma matchTSTF_shape : ∀ l m rest', matchTSTF l = Option.some (m, rest') →
    ∃ t f ds, m = t :: f :: '-' :: ds ∧ (t = 'T' ∨ t = 't') ∧
      (f = 'S' ∨ f = 's' ∨ f = 'F' ∨ f = 'f') ∧ ds ≠ [] ∧
      ∀ d ∈ ds, d.isDigit = true := by
  intro l m rest' h
  match l with
  | [] => cases h
  | [a] => cases h
  | [a, b] => cases h
  | t :: f :: d :: rest =>
    simp only [matchTSTF] at h
    by_cases hcond : (t = 'T' ∨ t = 't') ∧ (f = 'S' ∨ f = 's' ∨ f = 'F' ∨ f = 'f') ∧ d = '-'
    · rw [if_pos hcond] at h
      by_cases hds : (rest.takeWhile (fun c => c.isDigit)).isEmpty = true
      · rw [if_pos hds] at h; cases h
      · rw [if_neg hds] at h
        simp only [Option.some.injEq, Prod.mk.injEq] at h
        obtain ⟨rfl, _⟩ := h
        obtain ⟨ht, hf, rfl⟩ := hcond
        refine ⟨t, f, rest.takeWhile (fun c => c.isDigit), rfl, ht, hf, ?_, ?_⟩
        · intro hnil
          exact hds (by simp [hnil])
        · intro x hx
          exact List.mem_takeWhile_imp hx
    · rw [if_neg hcond] at h; cases h

lemma mem_findAllAux_shape : ∀ fuel (l : List Char) m, m ∈ findAllAux fuel l →
    ∃ t f ds, m = t :: f :: '-' :: ds ∧ (t = 'T' ∨ t = 't') ∧
      (f = 'S' ∨ f = 's' ∨ f = 'F' ∨ f = 'f') ∧ ds ≠ [] ∧
      ∀ d ∈ ds, d.isDigit = true := by
  intro fuel
  induction fuel with
  | zero => intro l m h; simp [findAllAux] at h
  | succ fuel ih =>
    intro l m h
    match l with
    | [] => simp [findAllAux] at h
    | c :: rest =>
      simp only [findAllAux] at h
      cases hmatch : matchTSTF (c :: rest) with
      | some pr =>
        obtain ⟨m0, remain⟩ := pr
        rw [hmatch] at h
        rcases List.mem_cons.mp h with rfl | h'
        · exact matchTSTF_shape (c :: rest) m remain hmatch
        · exact ih remain m h'
      | none =>
        rw [hmatch] at h
        exact ih rest m h

lemma mem_findallTSTF_shape (str : String) (s : String) (h : s ∈ findallTSTF str) :
    ∃ t f ds, s.data = t :: f :: '-' :: ds ∧ (t = 'T' ∨ t = 't') ∧
      (f = 'S' ∨ f = 's' ∨ f = 'F' ∨ f = 'f') ∧ ds ≠ [] ∧
      ∀ d ∈ ds, d.isDigit = true := by
  obtain ⟨m, hm, rfl⟩ := List.mem_map.mp h
  exact mem_findAllAux_shape str.data.length str.data m hm

/-- A code whose characters decompose as `T/t`, `S/s`, `-`, rest classifies
as `TS` regardless of the oracle field. -/
lemma classify_eq_TS_of_data (d3 code : String) (t f : Char) (rest : List Char)
    (hdata : code.data = t :: f :: '-' :: rest)
    (ht : t = 'T' ∨ t = 't') (hf : f = 'S' ∨ f = 's') :
    classify d3 code = "TS" := by
  have h1 : upperStartsWith code ['T', 'S', '-'] = true := by
    rw [upperStartsWith, hdata]
    exact ts_prefix_of_chars t f rest ht hf
  simp [classify, h1]

/-- A code whose characters decompose as `T/t`, `F/f`, `-`, rest classifies
as `TF` regardless of the oracle field. -/
lemma classify_eq_TF_of_data (d3 code : String) (t f : Char) (rest : List Char)
    (hdata : code.data = t :: f :: '-' :: rest)
    (ht : t = 'T' ∨ t = 't') (hf : f = 'F' ∨ f = 'f') :
    classify d3 code = "TF" := by
  have h1 : upperStartsWith code ['T', 'F', '-'] = true := by
    rw [upperStartsWith, hdata]
    exact tf_prefix_of_chars t f rest ht hf
  have h2 : upperStartsWith code ['T', 'S', '-'] = false := by
    cases hts : upperStartsWith code ['T', 'S', '-'] with
    | false => rfl
    | true =>
      have := ts_tf_prefix_exclusive (pyUpper code.data) hts
      rw [upperStartsWith] at h1
      rw [this] at h1
      cases h1
  simp [classify, h1, h2]

/-- C10: every sub-component code collected by the BOM scan is of the shape
prefix-dash-digits with prefix `TS`/`TF` in either case, so it is classified
through the prefix path as `TS` or `TF` for every value of the oracle's
product-type field, and its classification triggers no conditional sheet
(neither the MF, nor the ST, nor the KL sheet). -/
theorem C10_subcomponents_never_conditional (bom : List Cell) (d3 : String) :
    ∀ s ∈ extractSubComponents bom,
      (∃ t f ds, s.data = t :: f :: '-' :: ds ∧ (t = 'T' ∨ t = 't') ∧
        (f = 'S' ∨ f = 's' ∨ f = 'F' ∨ f = 'f') ∧ ds ≠ [] ∧
        ∀ d ∈ ds, d.isDigit = true) ∧
      (classify d3 s = "TS" ∨ classify d3 s = "TF") ∧
      conditionalSheetNames (classify d3 s) = [] := by
  intro s hs
  obtain ⟨c, _, hmatch⟩ := (mem_extractSubComponents bom s).mp hs
  have hshape : ∃ t f ds, s.data = t :: f :: '-' :: ds ∧ (t = 'T' ∨ t = 't') ∧
      (f = 'S' ∨ f = 's' ∨ f = 'F' ∨ f = 'f') ∧ ds ≠ [] ∧
      ∀ d ∈ ds, d.isDigit = true := by
    cases c with
    | str str0 => exact mem_findallTSTF_shape str0 s hmatch
    | none => cases hmatch
    | num x => cases hmatch
  refine ⟨hshape, ?_⟩
  obtain ⟨t, f, ds, hdata, ht, hf, _, _⟩ := hshape
  rcases hf with hf | hf | hf | hf
  · have hcls := classify_eq_TS_of_data d3 s t f ds hdata ht (Or.inl hf)
    rw [hcls]
    exact ⟨Or.inl rfl, by decide⟩
  · have hcls := classify_eq_TS_of_data d3 s t f ds hdata ht (Or.inr hf)
    rw [hcls]
    exact ⟨Or.inl rfl, by decide⟩
  · have hcls := classify_eq_TF_of_data d3 s t f ds hdata ht (Or.inl hf)
    rw [hcls]
    exact ⟨Or.inr rfl, by decide⟩
  · have hcls := classify_eq_TF_of_data d3 s t f ds hdata ht (Or.inr hf)
    rw [hcls]
    exact ⟨Or.inr rfl, by decide⟩

/-- Witness for C10: the BOM cell `"uses ts-12"` yields the sub-component
`"ts-12"`, which classifies via its prefix (here to `TS`, whatever the
oracle's field — even one reading `"MF"`) and triggers no conditional sheet. -/
theorem C10_subcomponents_never_conditional_witness :
    (classify "MF" "ts-12" = "TS" ∨ classify "MF" "ts-12" = "TF") ∧
    conditionalSheetNames (classify "MF" "ts-12") = [] := by
  have h := C10_subcomponents_never_conditional [Cell.str "uses ts-12"] "MF"
    "ts-12" (by decide)
  exact ⟨h.2.1, h.2.2⟩

/-! ## Order finalization and output naming (`Worker.run`, lines 527-543)

`clean_name = re.sub(r'\s*ok$', '', base_name, flags=re.IGNORECASE).strip()`
on the `os.path.splitext` root of the original order PDF filename, falling
back to the order number; each merge target is written only when it has at
least one page. -/

def isOChar (c : Char) : Bool := c == 'o' || c == 'O'

def isKChar (c : Char) : Bool := c == 'k' || c == 'K'

/-- Does `\s*ok$` match at the current position consuming the whole
remainder: a (possibly empty) whitespace run followed by exactly `ok`
(case-insensitive) at the end of the string? -/
def matchWsOkEnd (s : List Char) : Bool :=
  match s.dropWhile pyIsSpace with
  | [o, k] => isOChar o && isKChar k
  | _ => false

/-- `re.sub(r'\s*ok$', '', s, flags=re.IGNORECASE)`: scan left to right for
the leftmost position where the pattern matches through to the end of the
string and delete from there. -/
def reSubOk : List Char → List Char
  | [] => []
  | c :: cs => if matchWsOkEnd (c :: cs) then [] else c :: reSubOk cs

/-- Declarative form of the confirmation marker: the string ends in the two
letters `ok` (case-insensitive). -/
def endsWithOkMarker (s : List Char) : Bool :=
  match s.drop (s.length - 2) with
  | [o, k] => isOChar o && isKChar k
  | _ => false

/-- The confirmation marker — the final `ok` together with the whitespace run
preceding it — stripped from the end of the name, as the spec describes it;
a name without the marker is untouched. -/
def stripOkMarker (s : List Char) : List Char :=
  if endsWithOkMarker s then dropTrailingSpace (s.take (s.length - 2)) else s

/-- `os.path.splitext(filename)[0]` for a bare filename (no directory
separators): cut at the last dot unless every character before it is a dot. -/
def splitextRoot (s : List Char) : List Char :=
  if (s.reverse.takeWhile (fun c => c != '.')).length = s.length then s
  else if (s.reverse.drop ((s.reverse.takeWhile (fun c => c != '.')).length + 1)).all
      (fun c => c == '.') then s
  else (s.reverse.drop ((s.reverse.takeWhile (fun c => c != '.')).length + 1)).reverse

/-- `clean_name` of `Worker.run`: the marker-stripped, whitespace-stripped
root of the original order filename, or the order number when no original
order PDF was found. -/
def cleanOutputName (orderNum : String) (originalFilename : Option String) : String :=
  match originalFilename with
  | Option.none => orderNum
  | Option.some fn => String.mk (pyStrip (reSubOk (splitextRoot fn.data)))

/-- The three merged outputs an order finalization writes (`None` = target
had zero pages, so no file is written). -/
structure FinalizeResult where
  mainOut : Option String
  prepOut : Option String
  timingOut : Option String
deriving DecidableEq, Repr

/-- Lines 527-543 of `Worker.run`: write each merge target's output only when
it has at least one page; the main output is named by `clean_name`, the
preparation and timing outputs by fixed templates over the order number. -/
def finalizeOrder (orderNum : String) (orig : Option String)
    (mainPages prepPages timingPages : Nat) : FinalizeResult :=
  { mainOut :=
      if 0 < mainPages then Option.some (cleanOutputName orderNum orig ++ ".pdf")
      else Option.none
    prepOut :=
      if 0 < prepPages then Option.some ("آماده سازی(" ++ orderNum ++ ").pdf")
      else Option.none
    timingOut :=
      if 0 < timingPages then Option.some ("زمانسنجی(" ++ orderNum ++ ").pdf")
      else Option.none }

lemma matchWsOkEnd_inv (s : List Char) (h : matchWsOkEnd s = true) :
    ∃ o k, s.dropWhile pyIsSpace = [o, k] ∧ isOChar o = true ∧ isKChar k = true := by
  unfold matchWsOkEnd at h
  split at h
  · rename_i o k heq
    exact ⟨o, k, heq, (Bool.and_eq_true_iff.mp h).1, (Bool.and_eq_true_iff.mp h).2⟩
  · cases h

lemma matchWsOkEnd_of_dropWhile (s : List Char) (o k : Char)
    (hd : s.dropWhile pyIsSpace = [o, k]) (ho : isOChar o = true)
    (hk : isKChar k = true) : matchWsOkEnd s = true := by
  unfold matchWsOkEnd
  rw [hd]
  show (isOChar o && isKChar k) = true
  rw [ho, hk]
  rfl

lemma endsWithOkMarker_inv (s : List Char) (h : endsWithOkMarker s = true) :
    ∃ o k, s.drop (s.length - 2) = [o, k] ∧ isOChar o = true ∧ isKChar k = true := by
  unfold endsWithOkMarker at h
  split at h
  · rename_i o k heq
    exact ⟨o, k, heq, (Bool.and_eq_true_iff.mp h).1, (Bool.and_eq_true_iff.mp h).2⟩
  · cases h

lemma endsWithOkMarker_cons (c : Char) (cs : List Char) (h : 2 ≤ cs.length) :
    endsWithOkMarker (c :: cs) = endsWithOkMarker cs := by
  unfold endsWithOkMarker
  have hl : (c :: cs).length - 2 = (cs.length - 2) + 1 := by
    simp only [List.length_cons]
    omega
  rw [hl, List.drop_succ_cons]

lemma endsWithOkMarker_short (s : List Char) (h : s.length ≤ 1) :
    endsWithOkMarker s = false := by
  cases s with
  | nil => rfl
  | cons x tl =>
    cases tl with
    | nil => rfl
    | cons y tl2 =>
      exfalso
      simp only [List.length_cons] at h
      omega

lemma pyIsSpace_false_of_isO (c : Char) (h : isOChar c = true) : pyIsSpace c = false := by
  have h' : c = 'o' ∨ c = 'O' := by simpa [isOChar] using h
  rcases h' with rfl | rfl <;> decide

lemma dropTrailingSpace_eq_nil_iff (s : List Char) :
    dropTrailingSpace s = [] ↔ ∀ x ∈ s, pyIsSpace x = true := by
  unfold dropTrailingSpace
  rw [List.reverse_eq_nil_iff, List.dropWhile_eq_nil_iff]
  constructor
  · intro h x hx
    exact h x (List.mem_reverse.mpr hx)
  · intro h x hx
    exact h x (List.mem_reverse.mp hx)

lemma dropTrailingSpace_cons (c : Char) (X : List Char) :
    dropTrailingSpace (c :: X) =
      if dropTrailingSpace X = [] then (if pyIsSpace c = true then [] else [c])
      else c :: dropTrailingSpace X := by
  unfold dropTrailingSpace
  rw [List.reverse_cons, List.dropWhile_append]
  by_cases hx : X.reverse.dropWhile pyIsSpace = []
  · rw [hx]
    simp only [List.isEmpty_nil, List.reverse_nil]
    rw [if_pos True.intro, if_pos True.intro]
    by_cases hc : pyIsSpace c = true
    · rw [if_pos hc, List.dropWhile_cons, if_pos hc]
      rfl
    · have hc' : pyIsSpace c = false := by
        cases h2 : pyIsSpace c
        · rfl
        · exact absurd h2 hc
      rw [if_neg hc, List.dropWhile_cons, if_neg (by simp [hc'])]
      rfl
  · have hne : ¬ (X.reverse.dropWhile pyIsSpace).isEmpty = true := by
      simp [List.isEmpty_iff, hx]
    rw [if_neg hne]
    rw [if_neg (by simpa using hx), List.reverse_append]
    rfl

/-- The operational `re.sub(r'\s*ok$', '', ·)` scan agrees with the
declarative description: when the name ends with the (case-insensitive)
marker, the final `ok` and the whitespace run before it are removed,
otherwise the name is unchanged. -/
lemma reSubOk_eq_stripOkMarker : ∀ s : List Char, reSubOk s = stripOkMarker s := by
  intro s
  induction s with
  | nil => rfl
  | cons c cs ih =>
    cases hm : matchWsOkEnd (c :: cs) with
    | true =>
      simp only [reSubOk, hm, if_true]
      obtain ⟨o, k, hdrop, ho, hk⟩ := matchWsOkEnd_inv (c :: cs) hm
      have hsplit : (c :: cs).takeWhile pyIsSpace ++ [o, k] = c :: cs := by
        conv_rhs => rw [← List.takeWhile_append_dropWhile pyIsSpace (c :: cs)]
        rw [hdrop]
      have hallw : ∀ x ∈ (c :: cs).takeWhile pyIsSpace, pyIsSpace x = true :=
        fun x hx => List.mem_takeWhile_imp hx
      have hmarker : endsWithOkMarker (c :: cs) = true := by
        unfold endsWithOkMarker
        conv_lhs => rw [← hsplit]
        have hlen2 : ((c :: cs).takeWhile pyIsSpace ++ [o, k]).length - 2 =
            ((c :: cs).takeWhile pyIsSpace).length := by
          simp
        rw [hlen2, List.drop_left]
        show (isOChar o && isKChar k) = true
        rw [ho, hk]
        rfl
      rw [stripOkMarker, if_pos hmarker]
      conv_rhs => rw [← hsplit]
      have hlen2 : ((c :: cs).takeWhile pyIsSpace ++ [o, k]).length - 2 =
          ((c :: cs).takeWhile pyIsSpace).length := by
        simp
      rw [hlen2, List.take_left]
      symm
      rw [dropTrailingSpace_eq_nil_iff]
      exact hallw
    | false =>
      simp only [reSubOk, hm, if_false, Bool.false_eq_true]
      rw [ih]
      cases he : endsWithOkMarker (c :: cs) with
      | true =>
        have hlen : 2 ≤ cs.length := by
          by_contra hlt
          push_neg at hlt
          cases cs with
          | nil =>
            rw [endsWithOkMarker_short [c] (by simp)] at he
            cases he
          | cons x tl =>
            cases tl with
            | nil =>
              obtain ⟨o, k, hdrop, ho, hk⟩ := endsWithOkMarker_inv [c, x] he
              simp only [List.length_cons, List.length_nil] at hdrop
              norm_num at hdrop
              obtain ⟨rfl, rfl⟩ := hdrop
              have hns : pyIsSpace c = false := pyIsSpace_false_of_isO c ho
              have hmm : matchWsOkEnd [c, x] = true := by
                apply matchWsOkEnd_of_dropWhile [c, x] c x ?_ ho hk
                simp [List.dropWhile, hns]
              rw [hmm] at hm
              cases hm
            | cons y tl2 =>
              simp only [List.length_cons] at hlt
              omega
        have he' : endsWithOkMarker cs = true := by
          rw [← endsWithOkMarker_cons c cs hlen]
          exact he
        rw [stripOkMarker, if_pos he', stripOkMarker, if_pos he]
        have hl1 : (c :: cs).length - 2 = (cs.length - 2) + 1 := by
          simp only [List.length_cons]
          omega
        rw [hl1, List.take_succ_cons, dropTrailingSpace_cons]
        by_cases hz : dropTrailingSpace (cs.take (cs.length - 2)) = []
        · by_cases hc : pyIsSpace c = true
          · exfalso
            have halltake : ∀ x ∈ cs.take (cs.length - 2), pyIsSpace x = true :=
              (dropTrailingSpace_eq_nil_iff _).mp hz
            obtain ⟨o, k, hdrop, ho, hk⟩ := endsWithOkMarker_inv cs he'
            have hsplit : cs.take (cs.length - 2) ++ [o, k] = cs := by
              conv_rhs => rw [← List.take_append_drop (cs.length - 2) cs]
              rw [hdrop]
            have hform : (c :: cs) = (c :: cs.take (cs.length - 2)) ++ [o, k] := by
              rw [List.cons_append, hsplit]
            have hmm : matchWsOkEnd (c :: cs) = true := by
              apply matchWsOkEnd_of_dropWhile (c :: cs) o k ?_ ho hk
              rw [hform]
              rw [List.dropWhile_append_of_pos]
              · have hno : pyIsSpace o = false := pyIsSpace_false_of_isO o ho
                simp [List.dropWhile, hno]
              · intro a ha
                rcases List.mem_cons.mp ha with rfl | ha'
                · exact hc
                · exact halltake a ha'
            rw [hmm] at hm
            cases hm
          · have hc' : pyIsSpace c = false := by
              cases h2 : pyIsSpace c
              · rfl
              · exact absurd h2 hc
            rw [if_pos hz, if_neg hc, hz]
        · rw [if_neg hz]
      | false =>
        have he2 : endsWithOkMarker cs = false := by
          by_cases hlen : 2 ≤ cs.length
          · rw [← endsWithOkMarker_cons c cs hlen]
            exact he
          · exact endsWithOkMarker_short cs (by omega)
        rw [stripOkMarker, if_neg (by simp [he2]), stripOkMarker, if_neg (by simp [he])]

/-- The output name exactly as the claim words it, amended only by the final
whitespace trim: the original filename's root with the confirmation marker
stripped and the result trimmed of surrounding whitespace, falling back to
the order number. -/
def specMainName (orderNum : String) (orig : Option String) : String :=
  match orig with
  | Option.none => orderNum
  | Option.some fn => String.mk (pyStrip (stripOkMarker (splitextRoot fn.data)))

lemma cleanOutputName_eq_spec (orderNum : String) (orig : Option String) :
    cleanOutputName orderNum orig = specMainName orderNum orig := by
  cases orig with
  | none => rfl
  | some fn => simp only [cleanOutputName, specMainName, reSubOk_eq_stripOkMarker]

/-- Counterexample to C7 as stated: for the source order file `" A(7).pdf"`
(no confirmation marker), the claim's name — the base name with only the
marker stripped — keeps the leading space, but the code additionally applies
`str.strip()`, so the written main bundle is `"A(7).pdf"`, not
`" A(7).pdf"`. -/
theorem C7_counterexample :
    (finalizeOrder "7" (Option.some " A(7).pdf") 1 0 0).mainOut =
      Option.some "A(7).pdf" ∧
    String.mk (stripOkMarker (splitextRoot (" A(7).pdf").data)) ++ ".pdf" =
      " A(7).pdf" ∧
    (finalizeOrder "7" (Option.some " A(7).pdf") 1 0 0).mainOut ≠
      Option.some " A(7).pdf" := by
  decide

/-- C7 (amended): when the main merge target has at least one page, the
merged output is named by the original source order PDF's base name with the
trailing confirmation marker (case-insensitive `ok` preceded by optional
whitespace at the end) stripped and the result trimmed of surrounding
whitespace, falling back to the order number when no original order PDF was
found; a target with zero pages (main, preparation, timing independently)
produces no output file. -/
theorem C7_finalize_naming (orderNum : String) (orig : Option String)
    (m p t : Nat) :
    ((finalizeOrder orderNum orig m p t).mainOut = Option.none ↔ m = 0) ∧
    (0 < m → (finalizeOrder orderNum orig m p t).mainOut =
      Option.some (specMainName orderNum orig ++ ".pdf")) ∧
    ((finalizeOrder orderNum orig m p t).prepOut = Option.none ↔ p = 0) ∧
    ((finalizeOrder orderNum orig m p t).timingOut = Option.none ↔ t = 0) := by
  refine ⟨?_, ?_, ?_, ?_⟩
  · by_cases hm : 0 < m
    · simp only [finalizeOrder, if_pos hm]
      constructor
      · intro hcontra; cases hcontra
      · intro h0; omega
    · simp only [finalizeOrder, if_neg hm]
      constructor
      · intro _; omega
      · intro _; trivial
  · intro hm
    simp only [finalizeOrder, if_pos hm, cleanOutputName_eq_spec]
  · by_cases hp : 0 < p
    · simp only [finalizeOrder, if_pos hp]
      constructor
      · intro hcontra; cases hcontra
      · intro h0; omega
    · simp only [finalizeOrder, if_neg hp]
      constructor
      · intro _; omega
      · intro _; trivial
  · by_cases ht : 0 < t
    · simp only [finalizeOrder, if_pos ht]
      constructor
      · intro hcontra; cases hcontra
      · intro h0; omega
    · simp only [finalizeOrder, if_neg ht]
      constructor
      · intro _; omega
      · intro _; trivial

/-- Witness for the amended C7: the confirmed order file
`"Plan (12) OK.pdf"` yields the main bundle name `"Plan (12).pdf"`, and the
empty preparation target produces no file. -/
theorem C7_finalize_naming_witness :
    (finalizeOrder "12" (Option.some "Plan (12) OK.pdf") 3 0 2).mainOut =
      Option.some "Plan (12).pdf" ∧
    (finalizeOrder "12" (Option.some "Plan (12) OK.pdf") 3 0 2).prepOut =
      Option.none := by
  constructor
  · have h := (C7_finalize_naming "12" (Option.some "Plan (12) OK.pdf") 3 0 2).2.1
      (by decide)
    rw [h]
    decide
  · exact ((C7_finalize_naming "12" (Option.some "Plan (12) OK.pdf") 3 0 2).2.2.1).mpr
      rfl

end ProdPlan
